import Mathlib

/-!
Verification development for the frappe recommendation subsystem.

Shallow embedding of three source files:
- src/frappe/models/module.py : the module prediction pipeline;
- src/recommendation/management/commands/fill.py : the bulk data
  ingestion tool;
- src/recommendation/language/models.py : the Locale model and its
  item caches.

Python strings are modelled as lists of code points (List Nat), Python
dicts as association lists in insertion order, floats as rationals, and
fallible Python code (KeyError, AttributeError, failed imports) as
Option-valued functions.
-/

namespace Frappe

/-! ### A model of Python dictionaries as association lists -/

/-- Python dict lookup d[k]: the first entry with the given key (a dict
built through dictSet has duplicate-free keys, so the first entry is the
entry). -/
def dlookup {κ α : Type} [DecidableEq κ] (k : κ) : List (κ × α) → Option α
  | [] => none
  | p :: d => if p.1 = k then some p.2 else dlookup k d

/-- Python dict assignment d[k] = v: replaces the value at an existing
key in place, otherwise appends the new binding at the end (insertion
order). -/
def dictSet {κ α : Type} [DecidableEq κ] (k : κ) (v : α) : List (κ × α) → List (κ × α)
  | [] => [(k, v)]
  | p :: d => if p.1 = k then (k, v) :: d else p :: dictSet k v d

/-- Python del d[k]. -/
def dictDel {κ α : Type} [DecidableEq κ] (k : κ) : List (κ × α) → List (κ × α)
  | [] => []
  | p :: d => if p.1 = k then dictDel k d else p :: dictDel k d

/-- Python dict built by iterating assignments over a list of key-value
pairs, as in a dict comprehension: a later occurrence of a key
overwrites the value of an earlier one. -/
def pyDict {κ α : Type} [DecidableEq κ] (xs : List (κ × α)) : List (κ × α) :=
  xs.foldl (fun d p => dictSet p.1 p.2 d) []

/-- Keys of a dict, in order. -/
def dkeys {κ α : Type} (d : List (κ × α)) : List κ := d.map Prod.fst

/-- Python dict.get(k, default). -/
def dget {κ α : Type} [DecidableEq κ] (d : List (κ × α)) (k : κ) (dflt : α) : α :=
  (dlookup k d).getD dflt

/-! ### A model of Python strings as lists of code points -/

/-- Python strings are modelled as lists of Unicode code points. -/
abbrev PyStr := List Nat

/-- Code point of the ASCII hyphen, the separator inside locale names. -/
def dashChar : Nat := 45

/-- Code point of the ASCII dot, the separator inside dotted python
class paths. -/
def dotChar : Nat := 46

/-- Python str.split(sep) for a one-character separator sep. -/
def splitSep (s : Nat) : PyStr → List PyStr
  | [] => [[]]
  | c :: rest =>
    if c = s then [] :: splitSep s rest
    else
      match splitSep s rest with
      | [] => [[c]]
      | p :: ps => (c :: p) :: ps

/-- Python sep.join(parts) for a one-character separator sep. -/
def joinSep (s : Nat) : List PyStr → PyStr
  | [] => []
  | [p] => p
  | p :: ps => p ++ s :: joinSep s ps

/-! ### Python list slicing and the sqlite batching pattern of fill.py -/

/-- SQLITE_MAX_ROWS (fill.py line 67). -/
def SQLITE_MAX_ROWS : Nat := 950

/-- Python slice xs[i:j] for i ≤ j. -/
def pySlice {α : Type} (xs : List α) (i j : Nat) : List α :=
  (xs.drop i).take (j - i)

/-- The slices xs[i:i+SQLITE_MAX_ROWS] for i in
range(0, len(xs), SQLITE_MAX_ROWS): the chunking pattern used by the
fill tool for its sqlite bulk inserts and chunked fetches
(fill.py lines 201-210, 241-245, 250-258, 291-295, 333-336, 370-372,
415-417). -/
def sqliteChunks {α : Type} (xs : List α) : List (List α) :=
  (List.range ((xs.length + SQLITE_MAX_ROWS - 1) / SQLITE_MAX_ROWS)).map
    (fun k => pySlice xs (SQLITE_MAX_ROWS * k) (SQLITE_MAX_ROWS * k + SQLITE_MAX_ROWS))

/-- Database vendor, from connection.vendor; the fill tool only
distinguishes "sqlite" from everything else. -/
inductive DBVendor
  | sqlite
  | other
deriving DecidableEq

/-! ### module.py: Predictor and the class resolver -/

/-- A loaded python module: a finite map from attribute names to values,
the values abstracted as naturals. -/
abbrev PyModule := List (PyStr × Nat)

/-- A python environment: a finite map from importable dotted module
names to loaded modules. -/
abbrev PyEnv := List (PyStr × PyModule)

/-- Python getattr(m, a), with AttributeError modelled as none. -/
def pyGetattr (m : PyModule) (a : PyStr) : Option Nat := dlookup a m

/-- Python __import__(name): the dotted module name must be importable
(ImportError modelled as none), but the value returned is the TOP-LEVEL
module, the one named by the first dot-component of name. -/
def pyImport (env : PyEnv) (name : PyStr) : Option PyModule :=
  match dlookup name env with
  | none => none
  | some _ => dlookup ((splitSep dotChar name).headD []) env

/-- Predictor row (module.py lines 138-150); only the fields used by
get_class are modelled. -/
structure Predictor where
  identifier : PyStr
  python_class : PyStr

/-- Predictor.get_class (module.py lines 172-180): split python_class on
dots, join all components but the last back into a module path, and
return getattr(applied to the result of importing that path) at the last
component. -/
def Predictor.get_class (env : PyEnv) (p : Predictor) : Option Nat :=
  let class_parts := splitSep dotChar p.python_class
  let module := joinSep dotChar class_parts.dropLast
  let cls := class_parts.getLastD []
  match pyImport env module with
  | none => none
  | some m => pyGetattr m cls

/-- Resolver following the specification's words: the dotted path
m1.m2.....mk.C denotes the attribute named C of the module named
m1.m2.....mk. Stated from the spec for comparison with
Predictor.get_class, which is translated from the source. -/
def specResolveClass (env : PyEnv) (p : Predictor) : Option Nat :=
  let class_parts := splitSep dotChar p.python_class
  match dlookup (joinSep dotChar class_parts.dropLast) env with
  | none => none
  | some m => pyGetattr m (class_parts.getLastD [])

/-! ### module.py: Module and the prediction pipeline -/

/-- Module row together with its associated configuration (module.py
lines 190-206 and the through-tables at lines 284-333): predictors
lists the predictor ids of the module, predictorObj gives the loaded
per-module predictor instance as a callable (user, size) → score,
aggregatorRows are the PredictorWithAggregator rows of the module as
(predictor_id, weight) pairs, and filters and rerankers hold the filter
and re-ranker python objects as callables (recommendation, size) →
recommendation. Scores and weights are floats in the source, modelled
as rationals. -/
structure Module where
  pk : Nat
  predictors : List Nat
  predictorObj : Nat → Nat → Nat → Rat
  aggregatorRows : List (Nat × Rat)
  filters : List (Rat → Nat → Rat)
  rerankers : List (Rat → Nat → Rat)

/-- Module.get_predictors (module.py lines 230-238), the predictor ids
of the module, with the ORM query and cache decorator elided. -/
def Module.get_predictors (m : Module) : List Nat := m.predictors

/-- Module.get_predictor (module.py lines 240-249): the loaded predictor
instance for (module, predictor); class resolution, ORM access and the
cache decorator are elided into the predictorObj field. -/
def Module.get_predictor (m : Module) (predictor_id : Nat) : Nat → Nat → Rat :=
  m.predictorObj predictor_id

/-- Modelled from the spec: Module.get_filters is called by
predict_scores (module.py line 277) but defined nowhere under src; per
the spec the recommendation is piped through the module's configured
filter objects, so it returns the module's filter list. -/
def Module.get_filters (m : Module) : List (Rat → Nat → Rat) := m.filters

/-- Modelled from the spec: Module.get_re_renkers is called by
predict_scores (module.py line 279) but defined nowhere under src; per
the spec it returns the module's configured re-ranker objects. -/
def Module.get_re_renkers (m : Module) : List (Rat → Nat → Rat) := m.rerankers

/-- Module.get_aggregator (module.py lines 251-254): the weight dict
over the module's PredictorWithAggregator rows, keyed by predictor id. -/
def Module.get_aggregator (m : Module) : List (Nat × Rat) :=
  pyDict m.aggregatorRows

/-- The products predictions[pid] * weights[pid] over the keys of the
predictions dict, in order; none models the KeyError raised when some
predictor id has no weight in the aggregator dict. -/
def weightedTerms (weights : List (Nat × Rat)) : List (Nat × Rat) → Option (List Rat)
  | [] => some []
  | p :: ps =>
    match dlookup p.1 weights, weightedTerms weights ps with
    | some w, some rest => some (p.2 * w :: rest)
    | _, _ => none

/-- Module.aggregate (module.py lines 256-263):
np.sum(map(lambda pid: predictions[pid]*weights[pid], predictions.keys())). -/
def Module.aggregate (m : Module) (predictions : List (Nat × Rat)) : Option Rat :=
  (weightedTerms (Module.get_aggregator m) predictions).map List.sum

/-- Module.predict_scores (module.py lines 265-281): the per-predictor
recommendations dict, its aggregation, then the filter loop, then the
re-ranker loop. -/
def Module.predict_scores (m : Module) (user size : Nat) : Option Rat :=
  let recommendations :=
    pyDict ((Module.get_predictors m).map
      (fun predictor_id => (predictor_id, Module.get_predictor m predictor_id user size)))
  match Module.aggregate m recommendations with
  | none => none
  | some recommendation =>
    let filtered := (Module.get_filters m).foldl (fun r f => f r size) recommendation
    some ((Module.get_re_renkers m).foldl (fun r f => f r size) filtered)

/-- Stage one of the pipeline as the spec words it: invoke each of the
module's configured predictor instances with the pair (user, size),
keyed by predictor id. -/
def Module.invokePredictors (m : Module) (user size : Nat) : List (Nat × Rat) :=
  pyDict ((Module.get_predictors m).map
    (fun predictor_id => (predictor_id, Module.get_predictor m predictor_id user size)))

/-- Stage three of the pipeline as the spec words it: apply each of the
module's filters to the recommendation with (recommendation, size), in
order. -/
def Module.applyFilters (m : Module) (size : Nat) (recommendation : Rat) : Rat :=
  (Module.get_filters m).foldl (fun r f => f r size) recommendation

/-- Stage four of the pipeline as the spec words it: apply each of the
module's re-rankers with (recommendation, size), in order. -/
def Module.applyRerankers (m : Module) (size : Nat) (recommendation : Rat) : Rat :=
  (Module.get_re_renkers m).foldl (fun r f => f r size) recommendation

/-! ### fill.py: data model of the loaded rows and records -/

/-- Item row (recommendation.models.Item) as used by the fill tool:
external id and name. External ids and names are the stringified JSON
identifiers, abstracted as naturals. -/
structure Item where
  external_id : Nat
  name : Nat
deriving DecidableEq

/-- User row as used by the fill tool. -/
structure User where
  external_id : Nat
deriving DecidableEq

/-- Inventory row: pk is none for an unsaved row and some for a row
already in the store; dates are parsed datetimes, abstracted as
naturals, and dropped_date defaults to none. -/
structure Inventory where
  pk : Option Nat
  item_id : Nat
  user_id : Nat
  acquisition_date : Nat
  dropped_date : Option Nat
deriving DecidableEq

/-- A JSON item record as consumed by fill_db_with_items: whether the
item file identifier field is present in the record, the stringified
external id, and the resolved name (the name-resolution try/except of
lines 218-224 is elided into the name field; genre and locale fields
feed the separate linking phases and no dedup claim). -/
structure JsonItem where
  has_file_id : Bool
  eid : Nat
  name : Nat
deriving DecidableEq

/-- One entry of a user record's item list: the stringified item
external id, the raw acquisition date string, and the raw dropped date
string when the dropped field is present (raw date strings abstracted
as naturals). -/
structure JsonUserItem where
  eid : Nat
  acquired : Nat
  dropped : Option Nat
deriving DecidableEq

/-- A JSON user record as consumed by fill_db_with_users. -/
structure JsonUser where
  has_file_id : Bool
  uid : Nat
  items : List JsonUserItem
deriving DecidableEq

/-! ### fill.py: fill_db_with_items (lines 190-263, dedup core) -/

/-- Lines 194-199: keep only the records carrying the item file
identifier field. -/
def itemObjects (objects : List JsonItem) : List JsonItem :=
  objects.filter (fun o => o.has_file_id)

/-- Line 200: the dict mapping each record's external id to the record. -/
def json_items (objects : List JsonItem) : List (Nat × JsonItem) :=
  pyDict ((itemObjects objects).map (fun o => (o.eid, o)))

/-- Lines 211-212, non-sqlite branch: the dict of stored Item rows whose
external_id occurs among the given keys. -/
def fetchItems (db : List Item) (keys : List Nat) : List (Nat × Item) :=
  pyDict ((db.filter (fun r => decide (r.external_id ∈ keys))).map
    (fun r => (r.external_id, r)))

/-- Lines 201-210, sqlite branch: the same fetch issued over key chunks
of SQLITE_MAX_ROWS, the chunk results unioned into one dict. -/
def fetchItemsSqlite (db : List Item) (keys : List Nat) : List (Nat × Item) :=
  pyDict ((((sqliteChunks keys).map
    (fun b => db.filter (fun r => decide (r.external_id ∈ b)))).flatten).map
    (fun r => (r.external_id, r)))

/-- The per-vendor existing-items fetch of fill_db_with_items. -/
def existingItems (vendor : DBVendor) (db : List Item) (objects : List JsonItem) :
    List (Nat × Item) :=
  match vendor with
  | DBVendor.sqlite => fetchItemsSqlite db (dkeys (json_items objects))
  | DBVendor.other => fetchItems db (dkeys (json_items objects))

/-- Lines 213-225: the dict of new Item rows, one per external id of
json_items that is not a key of the existing-items dict. -/
def new_items (existing : List (Nat × Item)) (ji : List (Nat × JsonItem)) :
    List (Nat × Item) :=
  ji.foldl (fun acc p =>
    if p.1 ∈ dkeys existing then acc else dictSet p.1 ⟨p.1, p.2.name⟩ acc) []

/-- The new-items dict built by fill_db_with_items on the given store
and input. -/
def newItemRows (vendor : DBVendor) (db : List Item) (objects : List JsonItem) :
    List (Nat × Item) :=
  new_items (existingItems vendor db objects) (json_items objects)

/-- The item store after fill_db_with_items (lines 241-247): the only
write is bulk_create of the new rows, which inserts them after the
existing ones. -/
def itemsAfterFill (vendor : DBVendor) (db : List Item) (objects : List JsonItem) :
    List Item :=
  db ++ (newItemRows vendor db objects).map Prod.snd

/-! ### fill.py: fill_db_with_users (lines 445-482, dedup core) -/

/-- Lines 450-457: keep only the records carrying the user file
identifier field. -/
def userObjects (objects : List JsonUser) : List JsonUser :=
  objects.filter (fun o => o.has_file_id)

/-- Line 459: the dict mapping each record's external id to the record. -/
def json_users (objects : List JsonUser) : List (Nat × JsonUser) :=
  pyDict ((userObjects objects).map (fun o => (o.uid, o)))

/-- Line 460: the dict of stored User rows whose external_id occurs
among the given keys (no vendor branch here). -/
def fetchUsers (db : List User) (keys : List Nat) : List (Nat × User) :=
  pyDict ((db.filter (fun r => decide (r.external_id ∈ keys))).map
    (fun r => (r.external_id, r)))

/-- Lines 461-465: the dict of new User rows, one per external id of
json_users that is not a key of the fetched users dict. -/
def newUserRows (db : List User) (objects : List JsonUser) : List (Nat × User) :=
  (json_users objects).foldl (fun acc p =>
    if p.1 ∈ dkeys (fetchUsers db (dkeys (json_users objects))) then acc
    else dictSet p.1 ⟨p.1⟩ acc) []

/-- The user store after fill_db_with_users (line 469): the only write
is bulk_create of the new rows. -/
def usersAfterFill (db : List User) (objects : List JsonUser) : List User :=
  db ++ (newUserRows db objects).map Prod.snd

/-! ### fill.py: the bulk_create call sites (claim C4) -/

/-- The bulk_create calls issued by the chunking call sites
(fill_db_with_items lines 241-247, get_genres lines 291-297, get_locales
lines 333-338, fill_item_genre lines 370-372, fill_item_locale lines
415-417): chunked into SQLITE_MAX_ROWS slices under sqlite, one call
with all rows otherwise. -/
def chunkedBulkCreateCalls {α : Type} (vendor : DBVendor) (rows : List α) :
    List (List α) :=
  match vendor with
  | DBVendor.sqlite => sqliteChunks rows
  | DBVendor.other => [rows]

/-- The bulk_create call issued for new users (fill_db_with_users line
469): a single call with every new row, with no vendor branch and no
chunking. -/
def userBulkCreateCalls {α : Type} (_ : DBVendor) (rows : List α) : List (List α) :=
  [rows]

/-- The bulk_create call issued for inventory rows (fill_inventory line
520): a single call with every remaining row, with no vendor branch and
no chunking. -/
def inventoryBulkCreateCalls {α : Type} (_ : DBVendor) (rows : List α) : List (List α) :=
  [rows]

/-! ### fill.py: fill_inventory (lines 484-520) -/

/-- Lines 493-506, flattened iteration: for each record and each of its
listed items, the key-value pair ((item_id, user_id), row) when the item
external id is in the items map; a missing item is skipped with a
warning and contributes nothing. strptime with the configured date
format is abstracted as the parse function; dropped_date is set exactly
when the dropped field is present; new rows are unsaved (pk none). -/
def inventoryPairs (parse : Nat → Nat) (itemPk : Nat → Option Nat) (userPk : Nat → Nat)
    (objects : List JsonUser) : List ((Nat × Nat) × Inventory) :=
  ((objects.map (fun ju =>
    ju.items.filterMap (fun ji =>
      (itemPk ji.eid).map (fun item_id =>
        ((item_id, userPk ju.uid),
         ⟨none, item_id, userPk ju.uid, parse ji.acquired, ji.dropped.map parse⟩))))).flatten)

/-- Lines 493-506: the inventory dict keyed by (item_id, user_id), built
by iterating assignments over the flattened pairs. -/
def inventoryEntries (parse : Nat → Nat) (itemPk : Nat → Option Nat) (userPk : Nat → Nat)
    (objects : List JsonUser) : List ((Nat × Nat) × Inventory) :=
  pyDict (inventoryPairs parse itemPk userPk objects)

/-- The (item_id, user_id) pairs accumulated into query_inventory. -/
def inventoryQueryKeys (parse : Nat → Nat) (itemPk : Nat → Option Nat) (userPk : Nat → Nat)
    (objects : List JsonUser) : List (Nat × Nat) :=
  (inventoryPairs parse itemPk userPk objects).map Prod.fst

/-- Lines 508-518, one stored row: a pair present in the dict is deleted
when its dates equal the stored ones; otherwise the stored row object,
its dates replaced by the incoming ones, takes the dict slot. A stored
row whose pair is not in the dict changes nothing. -/
def inventoryDedupStep (d : List ((Nat × Nat) × Inventory)) (inv : Inventory) :
    List ((Nat × Nat) × Inventory) :=
  match dlookup (inv.item_id, inv.user_id) d with
  | none => d
  | some tmp =>
    if inv.acquisition_date ≠ tmp.acquisition_date ∨ inv.dropped_date ≠ tmp.dropped_date then
      dictSet (inv.item_id, inv.user_id)
        ⟨inv.pk, inv.item_id, inv.user_id, tmp.acquisition_date, tmp.dropped_date⟩ d
    else
      dictDel (inv.item_id, inv.user_id) d

/-- fill_inventory (lines 484-520): the entries built from the records,
deduplicated against the stored rows matching the accumulated query, and
the remaining dict values handed to one bulk_create. -/
def fill_inventory (parse : Nat → Nat) (itemPk : Nat → Option Nat) (userPk : Nat → Nat)
    (objects : List JsonUser) (db : List Inventory) : List Inventory :=
  let entries := inventoryEntries parse itemPk userPk objects
  let stored := db.filter (fun r =>
    decide ((r.item_id, r.user_id) ∈ inventoryQueryKeys parse itemPk userPk objects))
  (stored.foldl inventoryDedupStep entries).map Prod.snd

/-! ### language/models.py: Locale -/

/-- Locale row: language_code and country_code; the name and the m2m
fields play no role in the claims about save and get_locales. -/
structure LocaleRow where
  language_code : PyStr
  country_code : PyStr
deriving DecidableEq

/-- Python str.lower, applied per code point and restricted to the ASCII
letters. -/
def pyLowerChar (c : Nat) : Nat := if 65 ≤ c ∧ c ≤ 90 then c + 32 else c

/-- Python str.lower on a code point sequence. -/
def pyLower (s : PyStr) : PyStr := s.map pyLowerChar

/-- A code point sequence is lower case when lowering changes nothing. -/
def IsLowerStr (s : PyStr) : Prop := pyLower s = s

/-- Locale.save (language/models.py lines 39-48): lower-cases both codes
and hands the row to the framework's save, which stores exactly the
mutated row. -/
def LocaleRow.save (l : LocaleRow) : LocaleRow :=
  ⟨pyLower l.language_code, pyLower l.country_code⟩

/-- Locale.__str__ (language/models.py lines 36-37): the language code,
followed by a dash and the country code when the latter is nonempty. -/
def strLocale (r : LocaleRow) : PyStr :=
  if r.country_code = [] then r.language_code
  else r.language_code ++ dashChar :: r.country_code

/-! ### fill.py: get_locales (lines 302-341) -/

/-- The try/except around locale.split("-") in get_locales lines
312-315: exactly two components unpack into (language, country); any
other shape raises ValueError and falls back to (locale, ""). -/
def parseLocale (name : PyStr) : PyStr × PyStr :=
  match splitSep dashChar name with
  | [l, c] => (l, c)
  | _ => (name, [])

/-- The admission test of get_locales line 316: both parsed codes
shorter than 3 code points. -/
def localeOk (name : PyStr) : Bool :=
  decide ((parseLocale name).1.length < 3) && decide ((parseLocale name).2.length < 3)

/-- Lines 309-320: the (language_code, country_code) pairs accumulated
into query_locales, one per admitted name, in input order. -/
def queryPairs (names : List PyStr) : List (PyStr × PyStr) :=
  (names.filter localeOk).map parseLocale

/-- Lines 309-320: json_locales maps each admitted name to its parsed
pair. -/
def json_locales (names : List PyStr) : List (PyStr × (PyStr × PyStr)) :=
  pyDict ((names.filter localeOk).map (fun n => (n, parseLocale n)))

/-- Line 322: the dict keyed by str(locale) over the stored rows matched
by query_locales; the ORM filter on the OR of exact (language_code,
country_code) clauses is modelled as membership of the row's pair in the
accumulated pair set. -/
def localesFetched (db : List LocaleRow) (names : List PyStr) :
    List (PyStr × LocaleRow) :=
  pyDict ((db.filter (fun r =>
    decide ((r.language_code, r.country_code) ∈ queryPairs names))).map
    (fun r => (strLocale r, r)))

/-- Lines 324-331: the new Locale rows, one per input name that is a key
of json_locales but not of the fetched dict, in input order. bulk_create
bypasses Locale.save, so the codes are stored as parsed. -/
def newLocaleRows (db : List LocaleRow) (names : List PyStr) : List LocaleRow :=
  names.foldl (fun acc n =>
    if n ∈ dkeys (localesFetched db names) then acc
    else
      match dlookup n (json_locales names) with
      | some lc => acc ++ [⟨lc.1, lc.2⟩]
      | none => acc) []

/-- get_locales (lines 302-341): fetch by the accumulated query; unless
the fetched dict already has one entry per input name, bulk-insert the
new rows and fold the rows matching the new query back into the dict,
keyed by str(locale). -/
def get_locales (db : List LocaleRow) (names : List PyStr) :
    List (PyStr × LocaleRow) :=
  let locales := localesFetched db names
  if locales.length = names.length then locales
  else
    let nl := newLocaleRows db names
    let db2 := db ++ nl
    let fetched := db2.filter (fun r =>
      decide ((r.language_code, r.country_code) ∈
        nl.map (fun x => (x.language_code, x.country_code))))
    fetched.foldl (fun acc r => dictSet (strLocale r) r acc) locales

/-! ### language/models.py: the m2m item cache handler (lines 69-86) -/

/-- The two item caches of Locale (language/models.py lines 26-28), as
dicts from pk to a set of pks; the cached sets are modelled as
duplicate-free lists. -/
structure LocaleCaches where
  item_locales : List (Nat × List Nat)
  items_by_locale : List (Nat × List Nat)
deriving DecidableEq

/-- Python set.union with a one-element tuple. -/
def setUnion1 (s : List Nat) (x : Nat) : List Nat := if x ∈ s then s else s ++ [x]

/-- add_item_locale_to_cache (language/models.py lines 69-86), the
m2m_changed receiver on Locale.items. The add branch translates line 76
exactly as parenthesised in the source: the second argument of dict.get
is the default set([]).union((instance.pk,)), so when the item already
has a cache entry that entry is written back unchanged. The remove
branch reads Locale.items_by_locales, an attribute the class does not
define, so it raises AttributeError, modelled as none. Any other action
leaves the caches unchanged. -/
def add_item_locale_to_cache (st : LocaleCaches) (action : String) (instance_pk : Nat)
    (pk_set : List Nat) : Option LocaleCaches :=
  if action = "post_save" then
    some (pk_set.foldl (fun st i =>
      let il := dictSet i (dget st.item_locales i (setUnion1 [] instance_pk)) st.item_locales
      let ibl := dictSet instance_pk
        (setUnion1 (dget st.items_by_locale instance_pk []) i) st.items_by_locale
      ⟨il, ibl⟩) st)
  else if action = "post_remove" then none
  else some st

/-! ### Lemmas about the dictionary model -/

theorem dkeys_nil {κ α : Type} : dkeys ([] : List (κ × α)) = [] := rfl

theorem dkeys_cons {κ α : Type} {p : κ × α} {d : List (κ × α)} :
    dkeys (p :: d) = p.1 :: dkeys d := rfl

theorem dkeys_append {κ α : Type} {d e : List (κ × α)} :
    dkeys (d ++ e) = dkeys d ++ dkeys e := by
  simp [dkeys]

theorem dlookup_eq_none_iff {κ α : Type} [DecidableEq κ] {d : List (κ × α)} {k : κ} :
    dlookup k d = none ↔ k ∉ dkeys d := by
  induction d with
  | nil => simp [dlookup, dkeys]
  | cons p d ih =>
    by_cases h : p.1 = k
    · simp [dlookup, dkeys_cons, h]
    · have h2 : ¬ k = p.1 := fun hk => h hk.symm
      simp [dlookup, dkeys_cons, h, h2, ih]

theorem mem_of_dlookup_eq_some {κ α : Type} [DecidableEq κ] {d : List (κ × α)} {k : κ}
    {v : α} (h : dlookup k d = some v) : (k, v) ∈ d := by
  induction d with
  | nil => simp [dlookup] at h
  | cons p d ih =>
    obtain ⟨a, b⟩ := p
    by_cases hp : a = k
    · subst hp
      simp [dlookup] at h
      simp [h]
    · simp [dlookup, hp] at h
      simp [ih h]

theorem dlookup_dictSet_self {κ α : Type} [DecidableEq κ] {d : List (κ × α)} {k : κ}
    {v : α} : dlookup k (dictSet k v d) = some v := by
  induction d with
  | nil => simp [dictSet, dlookup]
  | cons p d ih =>
    obtain ⟨a, b⟩ := p
    by_cases hp : a = k <;> simp [dictSet, dlookup, hp, ih]

theorem dlookup_dictSet_ne {κ α : Type} [DecidableEq κ] {d : List (κ × α)} {j k : κ}
    {v : α} (h : j ≠ k) : dlookup j (dictSet k v d) = dlookup j d := by
  have h2 : ¬ k = j := fun hk => h hk.symm
  induction d with
  | nil => simp [dictSet, dlookup, h2]
  | cons p d ih =>
    obtain ⟨a, b⟩ := p
    by_cases hp : a = k
    · subst hp
      simp [dictSet, dlookup, h2]
    · by_cases hj : a = j <;> simp [dictSet, dlookup, hp, hj, ih, h]

theorem mem_dkeys_dictSet {κ α : Type} [DecidableEq κ] {d : List (κ × α)} {j k : κ}
    {v : α} : j ∈ dkeys (dictSet k v d) ↔ j = k ∨ j ∈ dkeys d := by
  induction d with
  | nil => simp [dictSet, dkeys]
  | cons p d ih =>
    obtain ⟨a, b⟩ := p
    by_cases hp : a = k
    · subst hp
      simp [dictSet, dkeys_cons]
    · simp [dictSet, dkeys_cons, hp, ih]
      tauto

theorem dkeys_dictSet_of_mem {κ α : Type} [DecidableEq κ] {d : List (κ × α)} {k : κ}
    {v : α} (h : k ∈ dkeys d) : dkeys (dictSet k v d) = dkeys d := by
  induction d with
  | nil => simp [dkeys] at h
  | cons p d ih =>
    obtain ⟨a, b⟩ := p
    by_cases hp : a = k
    · subst hp
      simp [dictSet, dkeys_cons]
    · have h' : k ∈ dkeys d := by
        simp [dkeys_cons] at h
        rcases h with h | h
        · exact absurd h.symm hp
        · exact h
      simp [dictSet, dkeys_cons, hp, ih h']

theorem dictSet_of_not_mem {κ α : Type} [DecidableEq κ] {d : List (κ × α)} {k : κ}
    {v : α} (h : k ∉ dkeys d) : dictSet k v d = d ++ [(k, v)] := by
  induction d with
  | nil => simp [dictSet]
  | cons p d ih =>
    simp [dkeys_cons] at h
    push_neg at h
    have hp : ¬ p.1 = k := fun e => h.1 e.symm
    simp [dictSet, hp, ih h.2]

theorem nodup_dkeys_dictSet {κ α : Type} [DecidableEq κ] {d : List (κ × α)} {k : κ}
    {v : α} (h : (dkeys d).Nodup) : (dkeys (dictSet k v d)).Nodup := by
  by_cases hm : k ∈ dkeys d
  · rw [dkeys_dictSet_of_mem hm]
    exact h
  · rw [dictSet_of_not_mem hm, dkeys_append]
    refine List.Nodup.append h (by simp [dkeys]) ?_
    intro x hx hk
    simp [dkeys] at hk
    subst hk
    exact hm hx

theorem dlookup_dictDel_self {κ α : Type} [DecidableEq κ] {d : List (κ × α)} {k : κ} :
    dlookup k (dictDel k d) = none := by
  induction d with
  | nil => simp [dictDel, dlookup]
  | cons p d ih =>
    obtain ⟨a, b⟩ := p
    by_cases hp : a = k <;> simp [dictDel, dlookup, hp, ih]

theorem dlookup_dictDel_ne {κ α : Type} [DecidableEq κ] {d : List (κ × α)} {j k : κ}
    (h : j ≠ k) : dlookup j (dictDel k d) = dlookup j d := by
  induction d with
  | nil => simp [dictDel]
  | cons p d ih =>
    obtain ⟨a, b⟩ := p
    by_cases hp : a = k
    · subst hp
      have h2 : ¬ a = j := fun hk => h hk.symm
      simp [dictDel, dlookup, h2, ih]
    · by_cases hj : a = j <;> simp [dictDel, dlookup, hp, hj, ih, h]

theorem mem_dkeys_dictDel {κ α : Type} [DecidableEq κ] {d : List (κ × α)} {j k : κ} :
    j ∈ dkeys (dictDel k d) ↔ j ∈ dkeys d ∧ j ≠ k := by
  induction d with
  | nil => simp [dictDel, dkeys]
  | cons p d ih =>
    obtain ⟨a, b⟩ := p
    by_cases hp : a = k
    · subst hp
      simp [dictDel, dkeys_cons, ih]
      tauto
    · simp [dictDel, dkeys_cons, hp, ih]
      constructor
      · rintro (h | h)
        · exact ⟨Or.inl h, fun e => hp (h.symm.trans e)⟩
        · tauto
      · tauto

theorem dictDel_sublist {κ α : Type} [DecidableEq κ] (k : κ) (d : List (κ × α)) :
    (dictDel k d).Sublist d := by
  induction d with
  | nil => simp [dictDel]
  | cons p d ih =>
    by_cases hp : p.1 = k
    · simp [dictDel, hp]
      exact ih.cons p
    · simp [dictDel, hp]
      exact ih

theorem nodup_dkeys_dictDel {κ α : Type} [DecidableEq κ] {d : List (κ × α)} {k : κ}
    (h : (dkeys d).Nodup) : (dkeys (dictDel k d)).Nodup :=
  ((dictDel_sublist k d).map Prod.fst).nodup h

theorem mem_dkeys_foldl_dictSet {κ α : Type} [DecidableEq κ] (xs : List (κ × α))
    (d0 : List (κ × α)) (k : κ) :
    k ∈ dkeys (xs.foldl (fun d p => dictSet p.1 p.2 d) d0) ↔
      k ∈ dkeys d0 ∨ k ∈ xs.map Prod.fst := by
  induction xs generalizing d0 with
  | nil => simp
  | cons p xs ih =>
    simp only [List.foldl_cons, List.map_cons, List.mem_cons]
    rw [ih, mem_dkeys_dictSet]
    tauto

theorem mem_dkeys_pyDict {κ α : Type} [DecidableEq κ] (xs : List (κ × α)) (k : κ) :
    k ∈ dkeys (pyDict xs) ↔ k ∈ xs.map Prod.fst := by
  rw [pyDict, mem_dkeys_foldl_dictSet]
  simp [dkeys]

theorem nodup_dkeys_foldl_dictSet {κ α : Type} [DecidableEq κ] (xs : List (κ × α))
    (d0 : List (κ × α)) (h : (dkeys d0).Nodup) :
    (dkeys (xs.foldl (fun d p => dictSet p.1 p.2 d) d0)).Nodup := by
  induction xs generalizing d0 with
  | nil => exact h
  | cons p xs ih =>
    simp only [List.foldl_cons]
    exact ih _ (nodup_dkeys_dictSet h)

theorem nodup_dkeys_pyDict {κ α : Type} [DecidableEq κ] (xs : List (κ × α)) :
    (dkeys (pyDict xs)).Nodup :=
  nodup_dkeys_foldl_dictSet xs [] (by simp [dkeys])

theorem foldl_dictSet_eq_append {κ α : Type} [DecidableEq κ] (xs : List (κ × α))
    (d0 : List (κ × α)) (h1 : (xs.map Prod.fst).Nodup)
    (h2 : ∀ j ∈ xs.map Prod.fst, j ∉ dkeys d0) :
    xs.foldl (fun d p => dictSet p.1 p.2 d) d0 = d0 ++ xs := by
  induction xs generalizing d0 with
  | nil => simp
  | cons p xs ih =>
    simp only [List.foldl_cons]
    rw [dictSet_of_not_mem (h2 p.1 (by simp))]
    have h1t : (xs.map Prod.fst).Nodup := (List.nodup_cons.mp (by simpa using h1)).2
    have h1h : p.1 ∉ xs.map Prod.fst := (List.nodup_cons.mp (by simpa using h1)).1
    rw [ih (d0 ++ [(p.1, p.2)]) h1t ?_]
    · simp
    intro j hj
    rw [dkeys_append]
    simp only [List.mem_append]
    rintro (hd | hd)
    · exact h2 j (by simp [hj]) hd
    · simp [dkeys] at hd
      subst hd
      exact h1h hj

theorem pyDict_eq_self_of_nodup {κ α : Type} [DecidableEq κ] {xs : List (κ × α)}
    (h : (xs.map Prod.fst).Nodup) : pyDict xs = xs := by
  rw [pyDict, foldl_dictSet_eq_append xs [] h (by simp [dkeys])]
  simp

theorem dlookup_eq_some_of_mem_nodup {κ α : Type} [DecidableEq κ] {d : List (κ × α)}
    {k : κ} {v : α} (hnd : (dkeys d).Nodup) (hm : (k, v) ∈ d) :
    dlookup k d = some v := by
  induction d with
  | nil => simp at hm
  | cons p d ih =>
    obtain ⟨a, b⟩ := p
    simp only [List.mem_cons] at hm
    rcases hm with hm | hm
    · rw [Prod.mk.injEq] at hm
      simp [dlookup, hm.1, hm.2]
    · have ha : ¬ a = k := by
        intro e
        subst e
        have : a ∈ dkeys d := by
          have := List.mem_map_of_mem Prod.fst hm
          simpa [dkeys] using this
        exact (List.nodup_cons.mp (by simpa [dkeys_cons] using hnd)).1 this
      simp [dlookup, ha]
      exact ih (List.nodup_cons.mp (by simpa [dkeys_cons] using hnd)).2 hm

/-! ### Lemmas about the string split model -/

theorem splitSep_ne_nil (s : Nat) (xs : PyStr) : splitSep s xs ≠ [] := by
  induction xs with
  | nil => simp [splitSep]
  | cons c rest ih =>
    by_cases hc : c = s
    · simp [splitSep, hc]
    · rcases h : splitSep s rest with _ | ⟨p, ps⟩
      · exact absurd h ih
      · simp [splitSep, hc, h]

theorem splitSep_of_not_mem {s : Nat} {xs : PyStr} (h : s ∉ xs) : splitSep s xs = [xs] := by
  induction xs with
  | nil => rfl
  | cons c rest ih =>
    simp only [List.mem_cons] at h
    push_neg at h
    have hc : ¬ c = s := fun e => h.1 e.symm
    simp [splitSep, hc, ih h.2]

theorem splitSep_append_cons {s : Nat} {l rest : PyStr} (h : s ∉ l) :
    splitSep s (l ++ s :: rest) = l :: splitSep s rest := by
  induction l with
  | nil => simp [splitSep]
  | cons c l ih =>
    simp only [List.mem_cons] at h
    push_neg at h
    have hc : ¬ c = s := fun e => h.1 e.symm
    rw [List.cons_append]
    simp [splitSep, hc, ih h.2]

theorem not_mem_of_mem_splitSep {s : Nat} {xs p : PyStr} (h : p ∈ splitSep s xs) :
    s ∉ p := by
  induction xs generalizing p with
  | nil =>
    simp [splitSep] at h
    subst h
    simp
  | cons c rest ih =>
    by_cases hc : c = s
    · simp [splitSep, hc] at h
      rcases h with h | h
      · subst h
        simp
      · exact ih h
    · rcases hsp : splitSep s rest with _ | ⟨q, qs⟩
      · exact absurd hsp (splitSep_ne_nil s rest)
      · simp [splitSep, hc, hsp] at h
        rcases h with h | h
        · subst h
          have hq : s ∉ q := ih (by rw [hsp]; exact List.mem_cons_self q qs)
          simp only [List.mem_cons]
          push_neg
          exact ⟨fun e => hc e.symm, hq⟩
        · exact ih (by rw [hsp]; exact List.mem_cons_of_mem q h)

theorem splitSep_joinSep {s : Nat} {ps : List PyStr} (h0 : ps ≠ [])
    (h : ∀ p ∈ ps, s ∉ p) : splitSep s (joinSep s ps) = ps := by
  induction ps with
  | nil => exact absurd rfl h0
  | cons p ps ih =>
    cases ps with
    | nil => simpa [joinSep] using splitSep_of_not_mem (h p (List.mem_cons_self p []))
    | cons q qs =>
      have hj : joinSep s (p :: q :: qs) = p ++ s :: joinSep s (q :: qs) := rfl
      rw [hj, splitSep_append_cons (h p (List.mem_cons_self p (q :: qs)))]
      rw [ih (by simp) (fun r hr => h r (List.mem_cons_of_mem p hr))]

/-! ### Lower-casing lemmas and claim C8 -/

theorem pyLowerChar_idem (c : Nat) : pyLowerChar (pyLowerChar c) = pyLowerChar c := by
  unfold pyLowerChar
  by_cases h : 65 ≤ c ∧ c ≤ 90
  · rw [if_pos h, if_neg (by omega)]
  · rw [if_neg h, if_neg h]

theorem pyLower_idem (s : PyStr) : pyLower (pyLower s) = pyLower s := by
  induction s with
  | nil => rfl
  | cons c s ih =>
    simp only [pyLower, List.map_cons, List.map_map] at ih ⊢
    rw [pyLowerChar_idem]
    simpa [pyLower] using ih

/-- C8: every Locale persisted through Locale.save has its language_code
and country_code stored lower-cased, whatever the case of the values
assigned before saving, and the stored codes satisfy the lower-case
invariant, so it is preserved by every save. -/
theorem locale_save_lowercase (l : LocaleRow) :
    (LocaleRow.save l).language_code = pyLower l.language_code ∧
    (LocaleRow.save l).country_code = pyLower l.country_code ∧
    IsLowerStr (LocaleRow.save l).language_code ∧
    IsLowerStr (LocaleRow.save l).country_code :=
  ⟨rfl, rfl, pyLower_idem l.language_code, pyLower_idem l.country_code⟩

/-! ### Claim C1: the order of the prediction pipeline -/

/-- C1: for every user and requested size, predict_scores first invokes
each of the module's configured predictor instances with (user, size),
combines the per-predictor results into one recommendation using the
module's weights (aggregate), then applies each of the module's filters
with (recommendation, size), and only after all filters applies each
re-ranker with (recommendation, size), returning the final re-ranked
recommendation; the result is none exactly when aggregate raises on a
missing weight. -/
theorem predict_scores_pipeline (m : Module) (user size : Nat) :
    Module.predict_scores m user size =
      (Module.aggregate m (Module.invokePredictors m user size)).map
        (fun recommendation =>
          Module.applyRerankers m size (Module.applyFilters m size recommendation)) := by
  unfold Module.predict_scores Module.invokePredictors
  rcases h : Module.aggregate m
      (pyDict ((Module.get_predictors m).map
        (fun predictor_id => (predictor_id, Module.get_predictor m predictor_id user size))))
    with _ | r <;>
    simp [h, Module.applyFilters, Module.applyRerankers]

/-! ### Claim C2: aggregate is the weighted sum -/

theorem weightedTerms_eq {W : List (Nat × Rat)} {predictions : List (Nat × Rat)}
    {w : Nat → Rat} (hw : ∀ p ∈ predictions, dlookup p.1 W = some (w p.1)) :
    weightedTerms W predictions = some (predictions.map (fun p => p.2 * w p.1)) := by
  induction predictions with
  | nil => rfl
  | cons p ps ih =>
    have hp := hw p (List.mem_cons_self p ps)
    have ht := ih (fun q hq => hw q (List.mem_cons_of_mem p hq))
    simp [weightedTerms, hp, ht]

/-- C2: for every module and every per-predictor predictions map whose
predictor ids all carry a weight in the module's aggregator table,
aggregate returns the sum over the predictor ids in the map of the
prediction times the weight stored for that (module, predictor) pair. -/
theorem aggregate_weighted_sum (m : Module) (predictions : List (Nat × Rat)) (w : Nat → Rat)
    (_hdict : (predictions.map Prod.fst).Nodup)
    (hw : ∀ p ∈ predictions, dlookup p.1 (Module.get_aggregator m) = some (w p.1)) :
    Module.aggregate m predictions =
      some ((predictions.map (fun p => p.2 * w p.1)).sum) := by
  rw [Module.aggregate, weightedTerms_eq hw]
  rfl

theorem aggregate_weighted_sum_witness :
    (([((10 : Nat), (5 : Rat)), (20, 7)].map Prod.fst).Nodup ∧
      ∀ p ∈ [((10 : Nat), (5 : Rat)), (20, 7)],
        dlookup p.1 (Module.get_aggregator ⟨1, [10, 20], fun _ _ _ => 0, [(10, 2), (20, 3)], [], []⟩) =
          some ((fun pid => if pid = 10 then (2 : Rat) else 3) p.1)) ∧
    Module.aggregate ⟨1, [10, 20], fun _ _ _ => 0, [(10, 2), (20, 3)], [], []⟩
        [((10 : Nat), (5 : Rat)), (20, 7)] =
      some (([((10 : Nat), (5 : Rat)), (20, 7)].map
        (fun p => p.2 * (fun pid => if pid = 10 then (2 : Rat) else 3) p.1)).sum) :=
  ⟨⟨by decide, by decide⟩,
    aggregate_weighted_sum _ _ (fun pid => if pid = 10 then (2 : Rat) else 3)
      (by decide) (by decide)⟩

/-! ### Claim C3: dotted class resolution in Predictor.get_class -/

/-- C3 counterexample: with modules a and a.b both importable, the
attribute C of module a bound to 1 and the attribute C of module a.b
bound to 2, get_class on python_class "a.b.C" returns 1, the attribute
of the top-level module a, while the class denoted by the dotted path,
the attribute of module a.b, is 2. -/
theorem get_class_dotted_counterexample :
    Predictor.get_class [([97], [([67], 1)]), ([97, 46, 98], [([67], 2)])]
        ⟨[], [97, 46, 98, 46, 67]⟩ = some 1 ∧
    specResolveClass [([97], [([67], 1)]), ([97, 46, 98], [([67], 2)])]
        ⟨[], [97, 46, 98, 46, 67]⟩ = some 2 := by
  decide

/-- C3 amended: for a predictor whose python_class is the dotted path
m1.….mk.C (k at least 1, components dot-free), get_class requires the
full module path m1.….mk to be importable but returns the attribute
named C of the TOP-LEVEL module m1, the first dot-component, because
Python's import builtin returns the top-level module; this coincides
with the attribute of the module named by all preceding components
exactly when k = 1. -/
theorem get_class_resolves_top_level (env : PyEnv) (p : Predictor) (comps : List PyStr)
    (c : PyStr) (h0 : comps ≠ []) (hfree : ∀ x ∈ comps, dotChar ∉ x) (hc : dotChar ∉ c)
    (hpc : p.python_class = joinSep dotChar (comps ++ [c])) :
    Predictor.get_class env p =
      ((dlookup (joinSep dotChar comps) env).bind
        (fun _ => dlookup (comps.headD []) env)).bind
        (fun m => pyGetattr m c) := by
  have hall : ∀ x ∈ comps ++ [c], dotChar ∉ x := by
    intro x hx
    rcases List.mem_append.mp hx with hx | hx
    · exact hfree x hx
    · simp at hx
      subst hx
      exact hc
  have hsplit : splitSep dotChar p.python_class = comps ++ [c] := by
    rw [hpc]
    exact splitSep_joinSep (by simp) hall
  have hdl : (comps ++ [c]).dropLast = comps := by
    simp
  have hgl : (comps ++ [c]).getLastD [] = c := by
    simp
  have hsplit2 : splitSep dotChar (joinSep dotChar comps) = comps :=
    splitSep_joinSep h0 hfree
  rw [Predictor.get_class]
  rw [hsplit, hdl, hgl]
  rw [pyImport, hsplit2]
  rcases h1 : dlookup (joinSep dotChar comps) env with _ | m1
  · rfl
  · rcases h2 : dlookup (comps.headD []) env with _ | m2 <;> rfl

theorem get_class_resolves_top_level_witness :
    (([[97]] : List PyStr) ≠ [] ∧ (∀ x ∈ ([[97]] : List PyStr), dotChar ∉ x) ∧
      dotChar ∉ ([67] : PyStr) ∧
      (Predictor.mk [] [97, 46, 67]).python_class = joinSep dotChar ([[97]] ++ [[67]])) ∧
    Predictor.get_class [([97], [([67], 5)])] ⟨[], [97, 46, 67]⟩ =
      ((dlookup (joinSep dotChar [[97]]) [([97], [([67], 5)])]).bind
        (fun _ => dlookup (([[97]] : List PyStr).headD []) [([97], [([67], 5)])])).bind
        (fun m => pyGetattr m [67]) :=
  ⟨⟨by decide, by decide, by decide, by decide⟩,
    get_class_resolves_top_level [([97], [([67], 5)])] ⟨[], [97, 46, 67]⟩ [[97]] [67]
      (by decide) (by decide) (by decide) (by decide)⟩

/-! ### Chunking lemmas and claim C4 -/

theorem range_chunks_flatten {α : Type} (m : Nat) (xs : List α)
    (h : xs.length ≤ SQLITE_MAX_ROWS * m) :
    ((List.range m).map
      (fun k => (xs.drop (SQLITE_MAX_ROWS * k)).take SQLITE_MAX_ROWS)).flatten = xs := by
  induction m generalizing xs with
  | zero =>
    simp only [Nat.mul_zero, Nat.le_zero] at h
    simp [List.eq_nil_of_length_eq_zero h]
  | succ m ih =>
    rw [List.range_succ_eq_map, List.map_cons, List.flatten_cons, List.map_map]
    have hcomp :
        (fun k => (xs.drop (SQLITE_MAX_ROWS * k)).take SQLITE_MAX_ROWS) ∘ Nat.succ =
          fun k => (((xs.drop SQLITE_MAX_ROWS).drop (SQLITE_MAX_ROWS * k)).take
            SQLITE_MAX_ROWS) := by
      funext k
      rw [Function.comp_apply, List.drop_drop]
      have harg : SQLITE_MAX_ROWS * Nat.succ k = SQLITE_MAX_ROWS + SQLITE_MAX_ROWS * k := by
        rw [Nat.succ_eq_add_one]
        ring
      rw [harg]
    rw [hcomp, ih (xs.drop SQLITE_MAX_ROWS)
      (by simp only [List.length_drop, SQLITE_MAX_ROWS] at h ⊢; omega)]
    simp [List.take_append_drop]

theorem sqliteChunks_flatten {α : Type} (xs : List α) :
    (sqliteChunks xs).flatten = xs := by
  have h950 : 0 < SQLITE_MAX_ROWS := by norm_num [SQLITE_MAX_ROWS]
  have hq : xs.length ≤
      SQLITE_MAX_ROWS * ((xs.length + SQLITE_MAX_ROWS - 1) / SQLITE_MAX_ROWS) := by
    have hdm := Nat.div_add_mod (xs.length + SQLITE_MAX_ROWS - 1) SQLITE_MAX_ROWS
    have hmod : (xs.length + SQLITE_MAX_ROWS - 1) % SQLITE_MAX_ROWS < SQLITE_MAX_ROWS :=
      Nat.mod_lt _ h950
    simp only [SQLITE_MAX_ROWS] at hdm hmod ⊢
    omega
  have hmain := range_chunks_flatten ((xs.length + SQLITE_MAX_ROWS - 1) / SQLITE_MAX_ROWS)
    xs hq
  rw [sqliteChunks]
  have hsl : (fun k => pySlice xs (SQLITE_MAX_ROWS * k)
      (SQLITE_MAX_ROWS * k + SQLITE_MAX_ROWS)) =
      fun k => (xs.drop (SQLITE_MAX_ROWS * k)).take SQLITE_MAX_ROWS := by
    funext k
    rw [pySlice, Nat.add_sub_cancel_left]
  rw [hsl]
  exact hmain

theorem mem_sqliteChunks_iff {α : Type} {xs : List α} {x : α} :
    (∃ b ∈ sqliteChunks xs, x ∈ b) ↔ x ∈ xs := by
  rw [← List.mem_flatten, sqliteChunks_flatten]

theorem sqliteChunks_length_le {α : Type} {xs : List α} {b : List α}
    (hb : b ∈ sqliteChunks xs) : b.length ≤ SQLITE_MAX_ROWS := by
  simp only [sqliteChunks, List.mem_map, List.mem_range] at hb
  obtain ⟨k, _, rfl⟩ := hb
  simp [pySlice, Nat.add_sub_cancel_left]

/-- C4 amended: under sqlite, every bulk_create issued by the chunking
call sites of the fill tool (new items, genres, locales, item-genre
links, item-locale links) receives at most SQLITE_MAX_ROWS rows, but
fill_db_with_users and fill_inventory issue one unchunked bulk_create
containing every new user and every inventory row, for every vendor
including sqlite. -/
theorem bulk_create_calls_amended {α : Type} (rows urows irows : List α) (b : List α)
    (hb : b ∈ chunkedBulkCreateCalls DBVendor.sqlite rows) :
    b.length ≤ SQLITE_MAX_ROWS ∧
    userBulkCreateCalls DBVendor.sqlite urows = [urows] ∧
    inventoryBulkCreateCalls DBVendor.sqlite irows = [irows] :=
  ⟨sqliteChunks_length_le hb, rfl, rfl⟩

theorem bulk_create_calls_amended_witness :
    ([(0 : Nat), 1, 2] ∈ chunkedBulkCreateCalls DBVendor.sqlite [(0 : Nat), 1, 2]) ∧
    ([(0 : Nat), 1, 2].length ≤ SQLITE_MAX_ROWS ∧
      userBulkCreateCalls DBVendor.sqlite [(9 : Nat)] = [[9]] ∧
      inventoryBulkCreateCalls DBVendor.sqlite [(9 : Nat)] = [[9]]) :=
  ⟨by decide,
    bulk_create_calls_amended [0, 1, 2] [9] [9] [(0 : Nat), 1, 2] (by decide)⟩

/-- C4 counterexample: under sqlite with 951 new user rows and 951
remaining inventory rows, the single bulk_create call issued by
fill_db_with_users (line 469) and by fill_inventory (line 520) carries
951 rows, exceeding SQLITE_MAX_ROWS = 950, so the claim fails for the
user and inventory inserts. -/
theorem users_bulk_create_uncapped_counterexample :
    (∃ b ∈ userBulkCreateCalls DBVendor.sqlite (List.replicate 951 (0 : Nat)),
      SQLITE_MAX_ROWS < b.length) ∧
    (∃ b ∈ inventoryBulkCreateCalls DBVendor.sqlite (List.replicate 951 (0 : Nat)),
      SQLITE_MAX_ROWS < b.length) := by
  refine ⟨⟨List.replicate 951 0, ?_, ?_⟩, ⟨List.replicate 951 0, ?_, ?_⟩⟩
  · exact List.mem_singleton_self _
  · rw [List.length_replicate]
    decide
  · exact List.mem_singleton_self _
  · rw [List.length_replicate]
    decide

/-! ### Dedup lemmas and claim C5 -/

theorem mem_dkeys_cond_foldl {κ α β : Type} [DecidableEq κ] (xs : List (κ × α))
    (ks : List κ) (f : κ × α → β) (k : κ) (d0 : List (κ × β)) :
    k ∈ dkeys (xs.foldl
        (fun acc p => if p.1 ∈ ks then acc else dictSet p.1 (f p) acc) d0) ↔
      k ∈ dkeys d0 ∨ (k ∈ xs.map Prod.fst ∧ k ∉ ks) := by
  induction xs generalizing d0 with
  | nil => simp
  | cons p xs ih =>
    by_cases hp : p.1 ∈ ks
    · simp only [List.foldl_cons, if_pos hp]
      rw [ih]
      simp only [List.map_cons, List.mem_cons]
      by_cases hk : k = p.1
      · subst hk
        simp [hp]
      · simp [hk]
    · simp only [List.foldl_cons, if_neg hp]
      rw [ih]
      simp only [mem_dkeys_dictSet, List.map_cons, List.mem_cons]
      by_cases hk : k = p.1
      · subst hk
        simp [hp]
      · simp [hk]

theorem mem_dkeys_new_items {existing : List (Nat × Item)} {ji : List (Nat × JsonItem)}
    {k : Nat} :
    k ∈ dkeys (new_items existing ji) ↔
      k ∈ ji.map Prod.fst ∧ k ∉ dkeys existing := by
  rw [new_items]
  have h := mem_dkeys_cond_foldl ji (dkeys existing)
    (fun p => (⟨p.1, p.2.name⟩ : Item)) k []
  simpa [dkeys] using h

theorem mem_dkeys_json_items {objects : List JsonItem} {eid : Nat} :
    eid ∈ dkeys (json_items objects) ↔ eid ∈ (itemObjects objects).map JsonItem.eid := by
  rw [json_items, mem_dkeys_pyDict]
  simp [List.map_map, Function.comp_def]

theorem mem_dkeys_fetchItems {db : List Item} {keys : List Nat} {eid : Nat} :
    eid ∈ dkeys (fetchItems db keys) ↔
      eid ∈ db.map Item.external_id ∧ eid ∈ keys := by
  rw [fetchItems, mem_dkeys_pyDict]
  simp only [List.map_map, Function.comp_def, List.mem_map, List.mem_filter,
    decide_eq_true_eq]
  constructor
  · rintro ⟨r, ⟨hr, hk⟩, rfl⟩
    exact ⟨⟨r, hr, rfl⟩, hk⟩
  · rintro ⟨⟨r, hr, rfl⟩, hk⟩
    exact ⟨r, ⟨hr, hk⟩, rfl⟩

theorem mem_dkeys_fetchItemsSqlite {db : List Item} {keys : List Nat} {eid : Nat} :
    eid ∈ dkeys (fetchItemsSqlite db keys) ↔
      eid ∈ db.map Item.external_id ∧ eid ∈ keys := by
  rw [fetchItemsSqlite, mem_dkeys_pyDict]
  simp only [List.map_map, Function.comp_def, List.mem_map, List.mem_flatten,
    List.mem_filter, decide_eq_true_eq]
  constructor
  · rintro ⟨r, ⟨l, ⟨b, hb, rfl⟩, hrl⟩, rfl⟩
    rw [List.mem_filter] at hrl
    obtain ⟨hrdb, hrb⟩ := hrl
    refine ⟨⟨r, hrdb, rfl⟩, ?_⟩
    exact mem_sqliteChunks_iff.mp ⟨b, hb, by simpa using hrb⟩
  · rintro ⟨⟨r, hr, rfl⟩, hk⟩
    obtain ⟨b, hb, hrb⟩ := mem_sqliteChunks_iff.mpr hk
    refine ⟨r, ⟨db.filter (fun q => decide (q.external_id ∈ b)), ⟨b, hb, rfl⟩, ?_⟩, rfl⟩
    rw [List.mem_filter]
    exact ⟨hr, by simpa using hrb⟩

theorem mem_dkeys_existingItems {vendor : DBVendor} {db : List Item}
    {objects : List JsonItem} {eid : Nat} :
    eid ∈ dkeys (existingItems vendor db objects) ↔
      eid ∈ db.map Item.external_id ∧ eid ∈ dkeys (json_items objects) := by
  cases vendor
  · rw [existingItems, mem_dkeys_fetchItemsSqlite]
  · rw [existingItems, mem_dkeys_fetchItems]

theorem mem_dkeys_new_users {db : List User} {objects : List JsonUser} {k : Nat} :
    k ∈ dkeys (newUserRows db objects) ↔
      k ∈ (json_users objects).map Prod.fst ∧
        k ∉ dkeys (fetchUsers db (dkeys (json_users objects))) := by
  rw [newUserRows]
  have h := mem_dkeys_cond_foldl (json_users objects)
    (dkeys (fetchUsers db (dkeys (json_users objects)))) (fun p => (⟨p.1⟩ : User)) k []
  simpa [dkeys] using h

theorem mem_dkeys_json_users {objects : List JsonUser} {uid : Nat} :
    uid ∈ dkeys (json_users objects) ↔ uid ∈ (userObjects objects).map JsonUser.uid := by
  rw [json_users, mem_dkeys_pyDict]
  simp [List.map_map, Function.comp_def]

theorem mem_dkeys_fetchUsers {db : List User} {keys : List Nat} {uid : Nat} :
    uid ∈ dkeys (fetchUsers db keys) ↔
      uid ∈ db.map User.external_id ∧ uid ∈ keys := by
  rw [fetchUsers, mem_dkeys_pyDict]
  simp only [List.map_map, Function.comp_def, List.mem_map, List.mem_filter,
    decide_eq_true_eq]
  constructor
  · rintro ⟨r, ⟨hr, hk⟩, rfl⟩
    exact ⟨⟨r, hr, rfl⟩, hk⟩
  · rintro ⟨⟨r, hr, rfl⟩, hk⟩
    exact ⟨r, ⟨hr, hk⟩, rfl⟩

/-- C5: on every load, a new Item row is created for a JSON record's
external id exactly when no Item with that external_id already exists in
the store (and the id occurs among the records carrying the item file
identifier), for both database vendors; the rows that existed before the
load are left unchanged, since the only write is an insert-only
bulk_create. The same holds for users in fill_db_with_users. -/
theorem fill_dedup_new_rows (vendor : DBVendor) (idb : List Item) (iobjs : List JsonItem)
    (udb : List User) (uobjs : List JsonUser) (eid uid : Nat) :
    (eid ∈ dkeys (newItemRows vendor idb iobjs) ↔
      eid ∈ (itemObjects iobjs).map JsonItem.eid ∧ eid ∉ idb.map Item.external_id) ∧
    (itemsAfterFill vendor idb iobjs).take idb.length = idb ∧
    (uid ∈ dkeys (newUserRows udb uobjs) ↔
      uid ∈ (userObjects uobjs).map JsonUser.uid ∧ uid ∉ udb.map User.external_id) ∧
    (usersAfterFill udb uobjs).take udb.length = udb := by
  refine ⟨?_, ?_, ?_, ?_⟩
  · rw [newItemRows, mem_dkeys_new_items, mem_dkeys_existingItems]
    rw [show (json_items iobjs).map Prod.fst = dkeys (json_items iobjs) from rfl]
    rw [mem_dkeys_json_items]
    tauto
  · rw [itemsAfterFill, List.take_left]
  · rw [mem_dkeys_new_users, mem_dkeys_fetchUsers]
    rw [show (json_users uobjs).map Prod.fst = dkeys (json_users uobjs) from rfl]
    rw [mem_dkeys_json_users]
    tauto
  · rw [usersAfterFill, List.take_left]

/-! ### Entry-membership lemmas for the inventory dicts -/

theorem mem_dictSet_sub {κ α : Type} [DecidableEq κ] {d : List (κ × α)} {k : κ} {v : α}
    {q : κ × α} (h : q ∈ dictSet k v d) : q = (k, v) ∨ q ∈ d := by
  induction d with
  | nil => simpa [dictSet] using h
  | cons p d ih =>
    by_cases hp : p.1 = k
    · simp [dictSet, hp] at h
      tauto
    · simp [dictSet, hp] at h
      rcases h with h | h
      · simp [h]
      · rcases ih h with h | h
        · simp [h]
        · simp [h]

theorem mem_foldl_dictSet_sub {κ α : Type} [DecidableEq κ] {xs : List (κ × α)}
    {d0 : List (κ × α)} {q : κ × α}
    (h : q ∈ xs.foldl (fun d p => dictSet p.1 p.2 d) d0) : q ∈ d0 ∨ q ∈ xs := by
  induction xs generalizing d0 with
  | nil => simp at h; simp [h]
  | cons p xs ih =>
    rw [List.foldl_cons] at h
    rcases ih h with h | h
    · rcases mem_dictSet_sub h with h | h
      · simp [h]
      · simp [h]
    · simp [h]

theorem mem_pyDict_sub {κ α : Type} [DecidableEq κ] {xs : List (κ × α)} {q : κ × α}
    (h : q ∈ pyDict xs) : q ∈ xs := by
  rcases mem_foldl_dictSet_sub h with h | h
  · simp at h
  · exact h

/-! ### Lemmas about the inventory dedup fold -/

theorem dedupStep_lookup_other {d : List ((Nat × Nat) × Inventory)} {inv : Inventory}
    {k : Nat × Nat} (h : (inv.item_id, inv.user_id) ≠ k) :
    dlookup k (inventoryDedupStep d inv) = dlookup k d := by
  rw [inventoryDedupStep]
  rcases hl : dlookup (inv.item_id, inv.user_id) d with _ | tmp
  · rfl
  · by_cases hd : inv.acquisition_date ≠ tmp.acquisition_date ∨
        inv.dropped_date ≠ tmp.dropped_date
    · simp only [if_pos hd]
      exact dlookup_dictSet_ne (fun e => h e.symm)
    · simp only [if_neg hd]
      exact dlookup_dictDel_ne (fun e => h e.symm)

theorem dedupStep_lookup_self {d : List ((Nat × Nat) × Inventory)} {inv : Inventory} :
    dlookup (inv.item_id, inv.user_id) (inventoryDedupStep d inv) =
      match dlookup (inv.item_id, inv.user_id) d with
      | none => none
      | some tmp =>
        if inv.acquisition_date ≠ tmp.acquisition_date ∨
            inv.dropped_date ≠ tmp.dropped_date then
          some ⟨inv.pk, inv.item_id, inv.user_id, tmp.acquisition_date, tmp.dropped_date⟩
        else none := by
  rw [inventoryDedupStep]
  rcases hl : dlookup (inv.item_id, inv.user_id) d with _ | tmp
  · exact hl
  · by_cases hd : inv.acquisition_date ≠ tmp.acquisition_date ∨
        inv.dropped_date ≠ tmp.dropped_date
    · simp only [if_pos hd]
      exact dlookup_dictSet_self
    · simp only [if_neg hd]
      exact dlookup_dictDel_self

theorem foldl_dedupStep_lookup_not_mem {rows : List Inventory}
    {d : List ((Nat × Nat) × Inventory)} {k : Nat × Nat}
    (h : ∀ r ∈ rows, (r.item_id, r.user_id) ≠ k) :
    dlookup k (rows.foldl inventoryDedupStep d) = dlookup k d := by
  induction rows generalizing d with
  | nil => rfl
  | cons r rows ih =>
    rw [List.foldl_cons, ih (fun x hx => h x (List.mem_cons_of_mem r hx)),
      dedupStep_lookup_other (h r (List.mem_cons_self r rows))]

theorem dedupStep_coherent {d : List ((Nat × Nat) × Inventory)} {inv : Inventory}
    (h : ∀ p ∈ d, (p.2.item_id, p.2.user_id) = p.1) :
    ∀ p ∈ inventoryDedupStep d inv, (p.2.item_id, p.2.user_id) = p.1 := by
  rw [inventoryDedupStep]
  rcases hl : dlookup (inv.item_id, inv.user_id) d with _ | tmp
  · exact h
  · by_cases hd : inv.acquisition_date ≠ tmp.acquisition_date ∨
        inv.dropped_date ≠ tmp.dropped_date
    · simp only [if_pos hd]
      intro p hp
      rcases mem_dictSet_sub hp with hp | hp
      · subst hp
        rfl
      · exact h p hp
    · simp only [if_neg hd]
      intro p hp
      exact h p ((dictDel_sublist _ _).subset hp)

theorem foldl_dedupStep_coherent {rows : List Inventory}
    {d : List ((Nat × Nat) × Inventory)}
    (h : ∀ p ∈ d, (p.2.item_id, p.2.user_id) = p.1) :
    ∀ p ∈ rows.foldl inventoryDedupStep d, (p.2.item_id, p.2.user_id) = p.1 := by
  induction rows generalizing d with
  | nil => exact h
  | cons r rows ih =>
    rw [List.foldl_cons]
    exact ih (dedupStep_coherent h)

theorem dedupStep_nodup {d : List ((Nat × Nat) × Inventory)} {inv : Inventory}
    (h : (dkeys d).Nodup) : (dkeys (inventoryDedupStep d inv)).Nodup := by
  rw [inventoryDedupStep]
  rcases hl : dlookup (inv.item_id, inv.user_id) d with _ | tmp
  · exact h
  · by_cases hd : inv.acquisition_date ≠ tmp.acquisition_date ∨
        inv.dropped_date ≠ tmp.dropped_date
    · simp only [if_pos hd]
      exact nodup_dkeys_dictSet h
    · simp only [if_neg hd]
      exact nodup_dkeys_dictDel h

theorem foldl_dedupStep_nodup {rows : List Inventory}
    {d : List ((Nat × Nat) × Inventory)} (h : (dkeys d).Nodup) :
    (dkeys (rows.foldl inventoryDedupStep d)).Nodup := by
  induction rows generalizing d with
  | nil => exact h
  | cons r rows ih =>
    rw [List.foldl_cons]
    exact ih (dedupStep_nodup h)

theorem inventoryPairs_coherent {parse : Nat → Nat} {itemPk : Nat → Option Nat}
    {userPk : Nat → Nat} {objects : List JsonUser} :
    ∀ p ∈ inventoryPairs parse itemPk userPk objects,
      (p.2.item_id, p.2.user_id) = p.1 := by
  intro p hp
  rw [inventoryPairs] at hp
  rw [List.mem_flatten] at hp
  obtain ⟨l, hl, hpl⟩ := hp
  rw [List.mem_map] at hl
  obtain ⟨ju, _, rfl⟩ := hl
  rw [List.mem_filterMap] at hpl
  obtain ⟨ji, _, hsome⟩ := hpl
  rcases hpk : itemPk ji.eid with _ | ipk
  · rw [hpk] at hsome
    simp at hsome
  · rw [hpk] at hsome
    simp only [Option.map_some'] at hsome
    obtain rfl := Option.some.inj hsome
    rfl

theorem inventoryEntries_coherent {parse : Nat → Nat} {itemPk : Nat → Option Nat}
    {userPk : Nat → Nat} {objects : List JsonUser} :
    ∀ p ∈ inventoryEntries parse itemPk userPk objects,
      (p.2.item_id, p.2.user_id) = p.1 :=
  fun p hp => inventoryPairs_coherent p (mem_pyDict_sub hp)

/-! ### Claim C6: fill_inventory builds the linking entries -/

/-- C6: for every loaded user record and every item it lists whose
external id is in the item store, the inventory dict of fill_inventory
contains the Inventory row linking the user to that item, with
acquisition_date obtained by parsing the record's acquired field with
the configured date format (strptime abstracted as parse) and
dropped_date set exactly when the dropped field is present; conversely
every entry arises in this way from a listed item whose external id is
in the store, so an item missing from the store is skipped (contributing
no entry, with a warning) while the rest of the load proceeds. The
hypothesis states that the derived (item, user) pairs are pairwise
distinct, so no later entry overwrites an earlier one. -/
theorem fill_inventory_entries (parse : Nat → Nat) (itemPk : Nat → Option Nat)
    (userPk : Nat → Nat) (objects : List JsonUser)
    (hnd : ((inventoryPairs parse itemPk userPk objects).map Prod.fst).Nodup) :
    (∀ ju ∈ objects, ∀ ji ∈ ju.items, ∀ ipk, itemPk ji.eid = some ipk →
      ((ipk, userPk ju.uid),
        Inventory.mk none ipk (userPk ju.uid) (parse ji.acquired)
          (ji.dropped.map parse)) ∈ inventoryEntries parse itemPk userPk objects) ∧
    (∀ e ∈ inventoryEntries parse itemPk userPk objects,
      ∃ ju, ju ∈ objects ∧ ∃ ji, ji ∈ ju.items ∧ ∃ ipk, itemPk ji.eid = some ipk ∧
        e = ((ipk, userPk ju.uid),
          Inventory.mk none ipk (userPk ju.uid) (parse ji.acquired)
            (ji.dropped.map parse))) := by
  have heq : inventoryEntries parse itemPk userPk objects =
      inventoryPairs parse itemPk userPk objects :=
    pyDict_eq_self_of_nodup hnd
  constructor
  · intro ju hju ji hji ipk hipk
    rw [heq, inventoryPairs, List.mem_flatten]
    refine ⟨_, List.mem_map_of_mem _ hju, ?_⟩
    rw [List.mem_filterMap]
    refine ⟨ji, hji, ?_⟩
    rw [hipk]
    rfl
  · intro e he
    rw [heq, inventoryPairs, List.mem_flatten] at he
    obtain ⟨l, hl, hel⟩ := he
    rw [List.mem_map] at hl
    obtain ⟨ju, hju, rfl⟩ := hl
    rw [List.mem_filterMap] at hel
    obtain ⟨ji, hji, hsome⟩ := hel
    rcases hpk : itemPk ji.eid with _ | ipk
    · rw [hpk] at hsome
      simp at hsome
    · rw [hpk] at hsome
      simp only [Option.map_some'] at hsome
      exact ⟨ju, hju, ji, hji, ipk, hpk, (Option.some.inj hsome).symm⟩

theorem fill_inventory_entries_witness :
    ((inventoryPairs (fun d => d + 1) (fun i => if i = 7 then some 70 else none)
        (fun u => u + 40) [⟨true, 5, [⟨8, 100, none⟩, ⟨7, 100, some 150⟩]⟩]).map
          Prod.fst).Nodup ∧
    ((∀ ju ∈ [(⟨true, 5, [⟨8, 100, none⟩, ⟨7, 100, some 150⟩]⟩ : JsonUser)],
        ∀ ji ∈ ju.items, ∀ ipk,
        (fun i => if i = 7 then some 70 else none) ji.eid = some ipk →
        ((ipk, (fun u => u + 40) ju.uid),
          Inventory.mk none ipk ((fun u => u + 40) ju.uid)
            ((fun d => d + 1) ji.acquired) (ji.dropped.map (fun d => d + 1))) ∈
          inventoryEntries (fun d => d + 1) (fun i => if i = 7 then some 70 else none)
            (fun u => u + 40) [⟨true, 5, [⟨8, 100, none⟩, ⟨7, 100, some 150⟩]⟩]) ∧
      (∀ e ∈ inventoryEntries (fun d => d + 1)
          (fun i => if i = 7 then some 70 else none)
          (fun u => u + 40) [⟨true, 5, [⟨8, 100, none⟩, ⟨7, 100, some 150⟩]⟩],
        ∃ ju, ju ∈ [(⟨true, 5, [⟨8, 100, none⟩, ⟨7, 100, some 150⟩]⟩ : JsonUser)] ∧
          ∃ ji, ji ∈ ju.items ∧ ∃ ipk,
            (fun i => if i = 7 then some 70 else none) ji.eid = some ipk ∧
            e = ((ipk, (fun u => u + 40) ju.uid),
              Inventory.mk none ipk ((fun u => u + 40) ju.uid)
                ((fun d => d + 1) ji.acquired)
                (ji.dropped.map (fun d => d + 1))))) :=
  ⟨by decide,
    fill_inventory_entries (fun d => d + 1) (fun i => if i = 7 then some 70 else none)
      (fun u => u + 40) [⟨true, 5, [⟨8, 100, none⟩, ⟨7, 100, some 150⟩]⟩]
      (by decide)⟩

/-! ### Claim C7: fill_inventory deduplicates against stored rows -/

/-- C7: for a stored Inventory row r whose (item, user) pair has an
incoming entry e, fill_inventory writes no row for the pair when the
incoming dates equal the stored ones; when they differ, the row passed
to bulk_create for that pair is the stored row object r with its dates
replaced by the incoming ones (same pk); and in either case the rows
passed to bulk_create contain no duplicate (item, user) pair. The first
hypothesis states the store holds at most one row per (item, user)
pair. -/
theorem fill_inventory_dedup (parse : Nat → Nat) (itemPk : Nat → Option Nat)
    (userPk : Nat → Nat) (objects : List JsonUser) (db : List Inventory)
    (r e : Inventory)
    (hdb : (db.map (fun x => (x.item_id, x.user_id))).Nodup)
    (hr : r ∈ db)
    (he : dlookup (r.item_id, r.user_id)
      (inventoryEntries parse itemPk userPk objects) = some e) :
    ((r.acquisition_date = e.acquisition_date ∧ r.dropped_date = e.dropped_date) →
      ∀ x ∈ fill_inventory parse itemPk userPk objects db,
        (x.item_id, x.user_id) ≠ (r.item_id, r.user_id)) ∧
    (¬ (r.acquisition_date = e.acquisition_date ∧ r.dropped_date = e.dropped_date) →
      Inventory.mk r.pk r.item_id r.user_id e.acquisition_date e.dropped_date ∈
        fill_inventory parse itemPk userPk objects db) ∧
    ((fill_inventory parse itemPk userPk objects db).map
        (fun x => (x.item_id, x.user_id))).Nodup := by
  have hkq : (r.item_id, r.user_id) ∈ inventoryQueryKeys parse itemPk userPk objects := by
    have hk : (r.item_id, r.user_id) ∈
        dkeys (inventoryEntries parse itemPk userPk objects) := by
      by_contra hk
      rw [← dlookup_eq_none_iff] at hk
      rw [hk] at he
      exact Option.noConfusion he
    rw [inventoryEntries, mem_dkeys_pyDict] at hk
    exact hk
  have hrs : r ∈ db.filter (fun x =>
      decide ((x.item_id, x.user_id) ∈ inventoryQueryKeys parse itemPk userPk objects)) :=
    List.mem_filter.mpr ⟨hr, by simpa using hkq⟩
  have hsnd : ((db.filter (fun x =>
      decide ((x.item_id, x.user_id) ∈
        inventoryQueryKeys parse itemPk userPk objects))).map
      (fun x => (x.item_id, x.user_id))).Nodup :=
    ((List.filter_sublist db).map (fun x => (x.item_id, x.user_id))).nodup hdb
  obtain ⟨l1, l2, hsplit⟩ := List.append_of_mem hrs
  rw [hsplit] at hsnd
  rw [List.map_append, List.map_cons] at hsnd
  obtain ⟨hnd1, hnd2, hdisj⟩ := List.nodup_append.mp hsnd
  have h1 : ∀ x ∈ l1, (x.item_id, x.user_id) ≠ (r.item_id, r.user_id) := by
    intro x hx hcontra
    exact hdisj (hcontra ▸ List.mem_map_of_mem _ hx)
      (List.mem_cons_self _ _)
  have h2 : ∀ x ∈ l2, (x.item_id, x.user_id) ≠ (r.item_id, r.user_id) := by
    intro x hx hcontra
    exact (List.nodup_cons.mp hnd2).1 (hcontra ▸ List.mem_map_of_mem _ hx)
  have hfinal : fill_inventory parse itemPk userPk objects db =
      (l2.foldl inventoryDedupStep
        (inventoryDedupStep
          (l1.foldl inventoryDedupStep (inventoryEntries parse itemPk userPk objects))
          r)).map Prod.snd := by
    rw [fill_inventory]
    rw [hsplit, List.foldl_append, List.foldl_cons]
  have hlk1 : dlookup (r.item_id, r.user_id)
      (l1.foldl inventoryDedupStep (inventoryEntries parse itemPk userPk objects)) =
      some e := by
    rw [foldl_dedupStep_lookup_not_mem h1, he]
  have hcoh : ∀ p ∈ l2.foldl inventoryDedupStep
      (inventoryDedupStep
        (l1.foldl inventoryDedupStep (inventoryEntries parse itemPk userPk objects)) r),
      (p.2.item_id, p.2.user_id) = p.1 := by
    apply foldl_dedupStep_coherent
    apply dedupStep_coherent
    apply foldl_dedupStep_coherent
    exact inventoryEntries_coherent
  have hndk : (dkeys (l2.foldl inventoryDedupStep
      (inventoryDedupStep
        (l1.foldl inventoryDedupStep (inventoryEntries parse itemPk userPk objects))
        r))).Nodup := by
    apply foldl_dedupStep_nodup
    apply dedupStep_nodup
    apply foldl_dedupStep_nodup
    exact nodup_dkeys_pyDict _
  refine ⟨?_, ?_, ?_⟩
  · intro hdates x hx hpair
    have hstep : dlookup (r.item_id, r.user_id)
        (inventoryDedupStep
          (l1.foldl inventoryDedupStep (inventoryEntries parse itemPk userPk objects))
          r) = none := by
      rw [dedupStep_lookup_self, hlk1]
      have hcond : ¬ (r.acquisition_date ≠ e.acquisition_date ∨
          r.dropped_date ≠ e.dropped_date) := by
        push_neg
        exact hdates
      simp only [if_neg hcond]
    have hnone : dlookup (r.item_id, r.user_id)
        (l2.foldl inventoryDedupStep
          (inventoryDedupStep
            (l1.foldl inventoryDedupStep (inventoryEntries parse itemPk userPk objects))
            r)) = none := by
      rw [foldl_dedupStep_lookup_not_mem h2, hstep]
    rw [dlookup_eq_none_iff] at hnone
    rw [hfinal] at hx
    rw [List.mem_map] at hx
    obtain ⟨p, hp, rfl⟩ := hx
    exact hnone (hpair ▸ (hcoh p hp ▸ List.mem_map_of_mem Prod.fst hp))
  · intro hdates
    have hcond : r.acquisition_date ≠ e.acquisition_date ∨
        r.dropped_date ≠ e.dropped_date := by
      tauto
    have hstep : dlookup (r.item_id, r.user_id)
        (inventoryDedupStep
          (l1.foldl inventoryDedupStep (inventoryEntries parse itemPk userPk objects))
          r) = some ⟨r.pk, r.item_id, r.user_id, e.acquisition_date, e.dropped_date⟩ := by
      rw [dedupStep_lookup_self, hlk1]
      simp only [if_pos hcond]
    have hsome : dlookup (r.item_id, r.user_id)
        (l2.foldl inventoryDedupStep
          (inventoryDedupStep
            (l1.foldl inventoryDedupStep (inventoryEntries parse itemPk userPk objects))
            r)) = some ⟨r.pk, r.item_id, r.user_id, e.acquisition_date, e.dropped_date⟩ := by
      rw [foldl_dedupStep_lookup_not_mem h2, hstep]
    rw [hfinal]
    exact List.mem_map_of_mem Prod.snd (mem_of_dlookup_eq_some hsome)
  · rw [hfinal, List.map_map]
    have hcongr : (l2.foldl inventoryDedupStep
        (inventoryDedupStep
          (l1.foldl inventoryDedupStep (inventoryEntries parse itemPk userPk objects))
          r)).map ((fun x => (x.item_id, x.user_id)) ∘ Prod.snd) =
        dkeys (l2.foldl inventoryDedupStep
          (inventoryDedupStep
            (l1.foldl inventoryDedupStep (inventoryEntries parse itemPk userPk objects))
            r)) :=
      List.map_congr_left (fun p hp => hcoh p hp)
    rw [hcongr]
    exact hndk

theorem fill_inventory_dedup_witness :
    (([(⟨some 9, 70, 50, 100, none⟩ : Inventory)].map
        (fun x => (x.item_id, x.user_id))).Nodup ∧
      (⟨some 9, 70, 50, 100, none⟩ : Inventory) ∈
        [(⟨some 9, 70, 50, 100, none⟩ : Inventory)] ∧
      dlookup ((⟨some 9, 70, 50, 100, none⟩ : Inventory).item_id,
          (⟨some 9, 70, 50, 100, none⟩ : Inventory).user_id)
        (inventoryEntries (fun d => d) (fun i => if i = 7 then some 70 else none)
          (fun _ => 50) [⟨true, 5, [⟨7, 200, none⟩]⟩]) =
        some ⟨none, 70, 50, 200, none⟩) ∧
    ((((⟨some 9, 70, 50, 100, none⟩ : Inventory).acquisition_date =
          (⟨none, 70, 50, 200, none⟩ : Inventory).acquisition_date ∧
        (⟨some 9, 70, 50, 100, none⟩ : Inventory).dropped_date =
          (⟨none, 70, 50, 200, none⟩ : Inventory).dropped_date) →
      ∀ x ∈ fill_inventory (fun d => d) (fun i => if i = 7 then some 70 else none)
          (fun _ => 50) [⟨true, 5, [⟨7, 200, none⟩]⟩]
          [⟨some 9, 70, 50, 100, none⟩],
        (x.item_id, x.user_id) ≠
          ((⟨some 9, 70, 50, 100, none⟩ : Inventory).item_id,
            (⟨some 9, 70, 50, 100, none⟩ : Inventory).user_id)) ∧
    (¬ ((⟨some 9, 70, 50, 100, none⟩ : Inventory).acquisition_date =
          (⟨none, 70, 50, 200, none⟩ : Inventory).acquisition_date ∧
        (⟨some 9, 70, 50, 100, none⟩ : Inventory).dropped_date =
          (⟨none, 70, 50, 200, none⟩ : Inventory).dropped_date) →
      Inventory.mk (⟨some 9, 70, 50, 100, none⟩ : Inventory).pk
          (⟨some 9, 70, 50, 100, none⟩ : Inventory).item_id
          (⟨some 9, 70, 50, 100, none⟩ : Inventory).user_id
          (⟨none, 70, 50, 200, none⟩ : Inventory).acquisition_date
          (⟨none, 70, 50, 200, none⟩ : Inventory).dropped_date ∈
        fill_inventory (fun d => d) (fun i => if i = 7 then some 70 else none)
          (fun _ => 50) [⟨true, 5, [⟨7, 200, none⟩]⟩]
          [⟨some 9, 70, 50, 100, none⟩]) ∧
    ((fill_inventory (fun d => d) (fun i => if i = 7 then some 70 else none)
        (fun _ => 50) [⟨true, 5, [⟨7, 200, none⟩]⟩]
        [⟨some 9, 70, 50, 100, none⟩]).map
        (fun x => (x.item_id, x.user_id))).Nodup) :=
  ⟨⟨by decide, by decide, by decide⟩,
    fill_inventory_dedup (fun d => d) (fun i => if i = 7 then some 70 else none)
      (fun _ => 50) [⟨true, 5, [⟨7, 200, none⟩]⟩] [⟨some 9, 70, 50, 100, none⟩]
      ⟨some 9, 70, 50, 100, none⟩ ⟨none, 70, 50, 200, none⟩
      (by decide) (by decide) (by decide)⟩

/-! ### Locale admission lemmas and claim C9 -/

theorem localeOk_of_parse {n : PyStr} (h : localeOk n = true) :
    localeOk (strLocale ⟨(parseLocale n).1, (parseLocale n).2⟩) = true := by
  rcases hsp : splitSep dashChar n with _ | ⟨l, tl⟩
  · exact absurd hsp (splitSep_ne_nil _ _)
  · cases tl with
    | nil =>
      have hp : parseLocale n = (n, []) := by
        rw [parseLocale, hsp]
      rw [hp]
      simpa [strLocale] using h
    | cons c tl2 =>
      cases tl2 with
      | nil =>
        have hp : parseLocale n = (l, c) := by
          rw [parseLocale, hsp]
        have hl : dashChar ∉ l :=
          not_mem_of_mem_splitSep (p := l)
            (by rw [hsp]; exact List.mem_cons_self _ _)
        have hc : dashChar ∉ c :=
          not_mem_of_mem_splitSep (p := c)
            (by rw [hsp]; exact List.mem_cons_of_mem _ (List.mem_cons_self _ _))
        rw [localeOk, hp] at h
        simp only [Bool.and_eq_true, decide_eq_true_eq] at h
        rw [hp]
        by_cases hcnil : c = []
        · subst hcnil
          have hstr : strLocale ⟨l, []⟩ = l := by
            simp [strLocale]
          rw [hstr, localeOk, parseLocale, splitSep_of_not_mem hl]
          simp only [Bool.and_eq_true, decide_eq_true_eq]
          exact ⟨h.1, by simp⟩
        · have hstr : strLocale ⟨l, c⟩ = l ++ dashChar :: c := by
            rw [strLocale]
            simp [hcnil]
          rw [hstr, localeOk, parseLocale, splitSep_append_cons hl,
            splitSep_of_not_mem hc]
          simp only [Bool.and_eq_true, decide_eq_true_eq]
          exact h
      | cons d tl3 =>
        have hp : parseLocale n = (n, []) := by
          rw [parseLocale, hsp]
        rw [hp]
        simpa [strLocale] using h

theorem queryPairs_from_admitted {names : List PyStr} :
    ∀ p ∈ queryPairs names, ∃ n, n ∈ names ∧ localeOk n = true ∧ p = parseLocale n := by
  intro p hp
  rw [queryPairs, List.mem_map] at hp
  obtain ⟨n, hn, rfl⟩ := hp
  rw [List.mem_filter] at hn
  exact ⟨n, hn.1, hn.2, rfl⟩

theorem localeOk_of_mem_dkeys_localesFetched {db : List LocaleRow} {names : List PyStr}
    {k : PyStr} (hk : k ∈ dkeys (localesFetched db names)) : localeOk k = true := by
  rw [localesFetched, mem_dkeys_pyDict] at hk
  simp only [List.map_map, Function.comp_def, List.mem_map, List.mem_filter,
    decide_eq_true_eq] at hk
  obtain ⟨r, ⟨_, hq⟩, rfl⟩ := hk
  obtain ⟨n, _, hok, hpair⟩ := queryPairs_from_admitted _ hq
  have hr : r = LocaleRow.mk (parseLocale n).1 (parseLocale n).2 := by
    rw [← hpair]
  rw [hr]
  exact localeOk_of_parse hok

theorem newLocaleRows_from_admitted {db : List LocaleRow} {names : List PyStr} :
    ∀ row ∈ newLocaleRows db names, ∃ n, n ∈ names ∧ localeOk n = true ∧
      row = LocaleRow.mk (parseLocale n).1 (parseLocale n).2 := by
  rw [newLocaleRows]
  have main : ∀ (ns : List PyStr) (acc : List LocaleRow),
      (∀ row ∈ acc, ∃ n, n ∈ names ∧ localeOk n = true ∧
        row = LocaleRow.mk (parseLocale n).1 (parseLocale n).2) →
      ∀ row ∈ ns.foldl (fun acc n =>
        if n ∈ dkeys (localesFetched db names) then acc
        else
          match dlookup n (json_locales names) with
          | some lc => acc ++ [⟨lc.1, lc.2⟩]
          | none => acc) acc,
        ∃ n, n ∈ names ∧ localeOk n = true ∧
          row = LocaleRow.mk (parseLocale n).1 (parseLocale n).2 := by
    intro ns
    induction ns with
    | nil => intro acc hacc row hrow; exact hacc row hrow
    | cons n ns ih =>
      intro acc hacc row hrow
      rw [List.foldl_cons] at hrow
      refine ih _ ?_ row hrow
      by_cases hmem : n ∈ dkeys (localesFetched db names)
      · simpa [hmem] using hacc
      · rcases hlc : dlookup n (json_locales names) with _ | lc
        · simpa [hmem, hlc] using hacc
        · simp only [if_neg hmem, hlc]
          intro x hx
          rw [List.mem_append] at hx
          rcases hx with hx | hx
          · exact hacc x hx
          · simp only [List.mem_singleton] at hx
            subst hx
            have hj := mem_pyDict_sub (mem_of_dlookup_eq_some hlc)
            rw [List.mem_map] at hj
            obtain ⟨n0, hn0, heq⟩ := hj
            rw [List.mem_filter] at hn0
            obtain ⟨he1, he2⟩ := Prod.mk.injEq .. ▸ heq
            refine ⟨n0, hn0.1, hn0.2, ?_⟩
            rw [he2]
  exact main names [] (by intro row hrow; simp at hrow)

theorem localeOk_of_mem_dkeys_get_locales {db : List LocaleRow} {names : List PyStr}
    {k : PyStr} (hk : k ∈ dkeys (get_locales db names)) : localeOk k = true := by
  rw [get_locales] at hk
  by_cases hlen : (localesFetched db names).length = names.length
  · rw [if_pos hlen] at hk
    exact localeOk_of_mem_dkeys_localesFetched hk
  · rw [if_neg hlen] at hk
    rw [← List.foldl_map (fun r => (strLocale r, r))
      (fun acc p => dictSet p.1 p.2 acc)] at hk
    rw [mem_dkeys_foldl_dictSet] at hk
    rcases hk with hk | hk
    · exact localeOk_of_mem_dkeys_localesFetched hk
    · rw [List.map_map] at hk
      simp only [Function.comp_def, List.mem_map, List.mem_filter,
        decide_eq_true_eq] at hk
      obtain ⟨r, ⟨_, hq⟩, rfl⟩ := hk
      obtain ⟨x, hx, hpair⟩ := hq
      obtain ⟨n, _, hok, hxeq⟩ := newLocaleRows_from_admitted x hx
      have hr : r = LocaleRow.mk (parseLocale n).1 (parseLocale n).2 := by
        obtain ⟨he1, he2⟩ := Prod.mk.injEq .. ▸ hpair
        rw [hxeq] at he1 he2
        cases r
        simp only [LocaleRow.mk.injEq]
        exact ⟨he1.symm, he2.symm⟩
      rw [hr]
      exact localeOk_of_parse hok

/-- C9: get_locales only queries for or creates Locale rows derived from
input names whose parsed language and country codes are each shorter
than 3 code points, i.e. names of the form XX or XX-XX (with the
ValueError fallback treating a name that does not split into exactly two
dash-components as a bare language code); every other name is dropped
with a warning: no accumulated query pair and no created row derives
from it, and the returned map contains no entry for it. -/
theorem get_locales_drops_malformed (db : List LocaleRow) (names : List PyStr)
    (name : PyStr) (_h1 : name ∈ names) (h2 : localeOk name = false) :
    name ∉ dkeys (get_locales db names) ∧
    (∀ row ∈ newLocaleRows db names, ∃ n, n ∈ names ∧ localeOk n = true ∧
      row = LocaleRow.mk (parseLocale n).1 (parseLocale n).2) ∧
    (∀ p ∈ queryPairs names, ∃ n, n ∈ names ∧ localeOk n = true ∧
      p = parseLocale n) := by
  refine ⟨?_, newLocaleRows_from_admitted, queryPairs_from_admitted⟩
  intro hk
  have hok := localeOk_of_mem_dkeys_get_locales hk
  rw [h2] at hok
  exact Bool.noConfusion hok

theorem get_locales_drops_malformed_witness :
    ([97, 98, 99] ∈ [[97, 98], [97, 98, 99]] ∧ localeOk [97, 98, 99] = false) ∧
    (([97, 98, 99] : PyStr) ∉ dkeys (get_locales [] [[97, 98], [97, 98, 99]]) ∧
      (∀ row ∈ newLocaleRows [] [[97, 98], [97, 98, 99]],
        ∃ n, n ∈ [[97, 98], [97, 98, 99]] ∧ localeOk n = true ∧
          row = LocaleRow.mk (parseLocale n).1 (parseLocale n).2) ∧
      (∀ p ∈ queryPairs [[97, 98], [97, 98, 99]],
        ∃ n, n ∈ [[97, 98], [97, 98, 99]] ∧ localeOk n = true ∧
          p = parseLocale n)) :=
  ⟨⟨by decide, by decide⟩,
    get_locales_drops_malformed [] [[97, 98], [97, 98, 99]] [97, 98, 99]
      (by decide) (by decide)⟩

/-! ### Claim C10: the locale item caches -/

/-- C10 (code bug): starting from empty caches, the add branch of
add_item_locale_to_cache records item 7 for locale 1, but adding the
same item to locale 2 leaves item_locales[7] = [1] — line 76 passes
set([]).union((instance.pk,)) as the dict.get DEFAULT, so an item that
already has a cache entry gets that old entry written back and the new
locale pk is never recorded — while items_by_locale[2] does gain item 7.
The claimed equivalence (a locale pk is in item_locales[item] iff the
item is in items_by_locale[locale]) is broken at item 7 and locale 2. -/
theorem locale_cache_inconsistency_bug :
    add_item_locale_to_cache ⟨[], []⟩ "post_save" 1 [7] =
      some ⟨[(7, [1])], [(1, [7])]⟩ ∧
    add_item_locale_to_cache ⟨[(7, [1])], [(1, [7])]⟩ "post_save" 2 [7] =
      some ⟨[(7, [1])], [(1, [7]), (2, [7])]⟩ ∧
    7 ∈ dget [(1, [7]), (2, [7])] 2 [] ∧
    2 ∉ dget [(7, [1])] 7 [] := by
  decide

end Frappe
